import Mathlib

/-!
Shallow embedding of the answer-normalisation, answer-checking and
session/leaderboard logic of `cogs/math.py` (class `MathCog`) from the
math-bot repository, together with theorems settling the specification
claims about them.

Strings are modelled as `List Char` at the core, with `String` wrappers
for the top-level entry points.  Python/sympy numeric values are modelled
with exact rationals; Python floats additionally carry the special values
`inf`, `-inf` and `nan` (finite float arithmetic is modelled exactly over
`ℚ`, with overflow to the infinities at the double-precision bound).
-/

namespace MathBot

/-- The three possible outcomes of `MathCog._check_answer`:
`(True, None)` is `correct`, `(False, "wrong")` is `wrong`, and
`(False, "invalid")` is `invalid` (the InvalidFormat verdict). -/
inductive Verdict
  | correct
  | wrong
  | invalid
deriving DecidableEq

/-- Characters matched by Python's `\s` regex class and stripped by
`str.strip()` (restricted to the ASCII range, which covers every input
considered here). -/
def isPySpace (c : Char) : Bool :=
  c == ' ' || c == '\t' || c == '\n' || c == '\r' || c == '\x0b' || c == '\x0c'

/-- Second half of the boxed-wrapper regex: given the input right after the
opening brace, the greedy payload group `[^\x7d]*` runs to the first closing
brace, which must then be present for the match to succeed. -/
def matchBoxedPayload (rest2 : List Char) : Option (List Char × List Char) :=
  match rest2.dropWhile (· != '\x7d') with
  | '\x7d' :: rest4 => some (rest2.takeWhile (· != '\x7d'), rest4)
  | _ => none

/-- Middle part of the boxed-wrapper regex: `\s*\x7b` after the literal
`\boxed`, i.e. greedy whitespace then the opening brace. -/
def matchBoxedAfterCmd (rest : List Char) : Option (List Char × List Char) :=
  match rest.dropWhile isPySpace with
  | '\x7b' :: rest2 => matchBoxedPayload rest2
  | _ => none

/-- Attempt to match the regex `\\boxed\s*\x7b([^\x7d]*)\x7d` at the head
of the input (as `re.sub` does at each scan position).  On success returns
the captured payload (group 1) and the input remaining after the match. -/
def matchBoxed (l : List Char) : Option (List Char × List Char) :=
  match l with
  | '\\' :: 'b' :: 'o' :: 'x' :: 'e' :: 'd' :: rest => matchBoxedAfterCmd rest
  | _ => none

theorem length_dropWhile_le (p : Char → Bool) :
    ∀ (l : List Char), (l.dropWhile p).length ≤ l.length
  | [] => Nat.le_refl _
  | c :: rest => by
    rw [List.dropWhile_cons]
    split
    · exact Nat.le_trans (length_dropWhile_le p rest) (Nat.le_succ _)
    · exact Nat.le_refl _

theorem matchBoxedPayload_some_len {l : List Char} {pr : List Char × List Char}
    (h : matchBoxedPayload l = some pr) : pr.2.length < l.length := by
  unfold matchBoxedPayload at h
  split at h
  next rest4 hdw =>
    have hle := length_dropWhile_le (· != '\x7d') l
    rw [hdw] at hle
    cases h
    show rest4.length < l.length
    simp only [List.length_cons] at hle
    omega
  next => exact absurd h (by simp)

theorem matchBoxedAfterCmd_some_len {l : List Char} {pr : List Char × List Char}
    (h : matchBoxedAfterCmd l = some pr) : pr.2.length < l.length := by
  unfold matchBoxedAfterCmd at h
  split at h
  next rest2 hdw =>
    have hle := length_dropWhile_le isPySpace l
    rw [hdw] at hle
    have h2 := matchBoxedPayload_some_len h
    simp only [List.length_cons] at hle
    omega
  next => exact absurd h (by simp)

theorem matchBoxed_some_len {l : List Char} {pr : List Char × List Char}
    (h : matchBoxed l = some pr) : pr.2.length < l.length := by
  unfold matchBoxed at h
  split at h
  next rest =>
    have h2 := matchBoxedAfterCmd_some_len h
    simp only [List.length_cons]
    omega
  next => exact absurd h (by simp)

/-- The scan loop of `re.sub(r"\\boxed\s*\{([^}]*)\}", r"\1", ans)`:
at each position, if the pattern matches, emit the captured payload and
continue after the match; otherwise emit the current character and advance
by one.  The replacement text is not rescanned.  The recursion is driven
by a fuel argument so that the function reduces computationally; a match
consumes at least one character of the remaining input, so any fuel of at
least the input length gives the untruncated scan (`subBoxedAuxF_irrel`
below makes this precise). -/
def subBoxedAuxF : Nat → List Char → List Char
  | 0, l => l
  | _+1, [] => []
  | fuel+1, c :: rest =>
    match matchBoxed (c :: rest) with
    | some pr => pr.1 ++ subBoxedAuxF fuel pr.2
    | none => c :: subBoxedAuxF fuel rest

/-- The boxed-wrapper substitution over the whole input. -/
def subBoxedAux (l : List Char) : List Char :=
  subBoxedAuxF l.length l

theorem subBoxedAuxF_irrel :
    ∀ (f1 : Nat) (l : List Char) (f2 : Nat), l.length ≤ f1 → l.length ≤ f2 →
      subBoxedAuxF f1 l = subBoxedAuxF f2 l
  | 0, l, f2, h1, _ => by
    have hl : l = [] := List.length_eq_zero.mp (Nat.le_zero.mp h1)
    subst hl
    cases f2 <;> rfl
  | _+1, [], f2, _, _ => by cases f2 <;> rfl
  | f+1, c :: rest, f2, h1, h2 => by
    cases f2 with
    | zero => simp at h2
    | succ g =>
      simp only [List.length_cons, Nat.succ_le_succ_iff] at h1 h2
      simp only [subBoxedAuxF]
      cases hm : matchBoxed (c :: rest) with
      | some pr =>
        have hlen := matchBoxed_some_len hm
        simp only [List.length_cons] at hlen
        exact congrArg (pr.1 ++ ·)
          (subBoxedAuxF_irrel f pr.2 g (by omega) (by omega))
      | none =>
        exact congrArg (c :: ·)
          (subBoxedAuxF_irrel f rest g (by omega) (by omega))

/-- The scan loop of Python `str.replace("$$", "$")`: non-overlapping
replacement, left to right.  Fuel-driven like `subBoxedAuxF`; every step
consumes at least one character, so fuel of at least the input length
gives the untruncated scan. -/
def replaceDDF : Nat → List Char → List Char
  | 0, l => l
  | _+1, [] => []
  | fuel+1, c1 :: rest =>
    if c1 = '$' then
      match rest with
      | [] => [c1]
      | c2 :: rest2 =>
        if c2 = '$' then '$' :: replaceDDF fuel rest2
        else c1 :: replaceDDF fuel (c2 :: rest2)
    else c1 :: replaceDDF fuel rest

def replaceDD (l : List Char) : List Char :=
  replaceDDF l.length l

/-- `MathCog._clean_answer_latex` on character lists:
`re.sub(r"\\boxed\s*\{([^}]*)\}", r"\1", ans).replace("$$", "$")`. -/
def cleanAnswerLatexCore (l : List Char) : List Char :=
  replaceDD (subBoxedAux l)

/-- `MathCog._clean_answer_latex` (string level). -/
def cleanAnswerLatex (s : String) : String :=
  ⟨cleanAnswerLatexCore s.data⟩

/-- Decides whether the boxed-wrapper regex matches anywhere in the input. -/
def hasBoxedMatch : List Char → Bool
  | [] => false
  | c :: rest => (matchBoxed (c :: rest)).isSome || hasBoxedMatch rest

/-- Decides whether the input contains two adjacent dollar signs. -/
def hasDD (l : List Char) : Bool :=
  (l.zip l.tail).any fun p => p.1 = '$' && p.2 = '$'

theorem subBoxedAuxF_id :
    ∀ (fuel : Nat) (l : List Char), hasBoxedMatch l = false → subBoxedAuxF fuel l = l
  | 0, _, _ => rfl
  | _+1, [], _ => rfl
  | fuel+1, c :: rest, h => by
    have hsplit : (matchBoxed (c :: rest)).isSome = false ∧ hasBoxedMatch rest = false := by
      simpa [hasBoxedMatch] using h
    have hnone : matchBoxed (c :: rest) = none :=
      Option.not_isSome_iff_eq_none.mp (by simp [hsplit.1])
    simp only [subBoxedAuxF, hnone]
    exact congrArg (c :: ·) (subBoxedAuxF_id fuel rest hsplit.2)

theorem subBoxedAux_id (l : List Char) (h : hasBoxedMatch l = false) :
    subBoxedAux l = l :=
  subBoxedAuxF_id l.length l h

theorem hasDD_cons {c1 : Char} {rest : List Char} (h : hasDD (c1 :: rest) = false) :
    hasDD rest = false := by
  cases rest with
  | nil => rfl
  | cons c2 rest2 =>
    simp only [hasDD, List.tail_cons, List.zip_cons_cons, List.any_cons,
      Bool.or_eq_false_iff] at h ⊢
    exact h.2

theorem hasDD_head {c1 c2 : Char} {rest2 : List Char}
    (h : hasDD (c1 :: c2 :: rest2) = false) : (c1 = '$' && c2 = '$') = false := by
  simp only [hasDD, List.tail_cons, List.zip_cons_cons, List.any_cons,
    Bool.or_eq_false_iff] at h
  exact h.1

theorem replaceDDF_id :
    ∀ (fuel : Nat) (l : List Char), hasDD l = false → replaceDDF fuel l = l
  | 0, _, _ => rfl
  | _+1, [], _ => rfl
  | fuel+1, c1 :: rest, h => by
    simp only [replaceDDF]
    by_cases hc : c1 = '$'
    · rw [if_pos hc]
      cases rest with
      | nil => rfl
      | cons c2 rest2 =>
        have hc2 : ¬ c2 = '$' := by
          have hh := hasDD_head h
          simp [hc] at hh
          exact hh
        show (if c2 = '$' then '$' :: replaceDDF fuel rest2
              else c1 :: replaceDDF fuel (c2 :: rest2)) = c1 :: c2 :: rest2
        rw [if_neg hc2]
        exact congrArg (c1 :: ·) (replaceDDF_id fuel (c2 :: rest2) (hasDD_cons h))
    · rw [if_neg hc]
      exact congrArg (c1 :: ·) (replaceDDF_id fuel rest (hasDD_cons h))

theorem replaceDD_id (l : List Char) (h : hasDD l = false) : replaceDD l = l :=
  replaceDDF_id l.length l h

theorem takeWhile_append_all {p : Char → Bool} :
    ∀ (l1 l2 : List Char), l1.all p = true →
      (l1 ++ l2).takeWhile p = l1 ++ l2.takeWhile p
  | [], _, _ => rfl
  | c :: l1, l2, h => by
    have hc : p c = true := by
      simp only [List.all_cons, Bool.and_eq_true] at h
      exact h.1
    have hrest : l1.all p = true := by
      simp only [List.all_cons, Bool.and_eq_true] at h
      exact h.2
    simp only [List.cons_append, List.takeWhile_cons, hc]
    exact congrArg (c :: ·) (takeWhile_append_all l1 l2 hrest)

theorem dropWhile_append_all {p : Char → Bool} :
    ∀ (l1 l2 : List Char), l1.all p = true →
      (l1 ++ l2).dropWhile p = l2.dropWhile p
  | [], _, _ => rfl
  | c :: l1, l2, h => by
    have hc : p c = true := by
      simp only [List.all_cons, Bool.and_eq_true] at h
      exact h.1
    have hrest : l1.all p = true := by
      simp only [List.all_cons, Bool.and_eq_true] at h
      exact h.2
    simp only [List.cons_append, List.dropWhile_cons, hc]
    exact dropWhile_append_all l1 l2 hrest

theorem matchBoxedPayload_prefix {p1 rest : List Char} (h : p1.all (· != '\x7d') = true) :
    matchBoxedPayload (p1 ++ '\x7d' :: rest) = some (p1, rest) := by
  have hdw2 : (p1 ++ '\x7d' :: rest).dropWhile (· != '\x7d') = '\x7d' :: rest := by
    rw [dropWhile_append_all p1 ('\x7d' :: rest) h]
    simp [List.dropWhile_cons]
  have htw : (p1 ++ '\x7d' :: rest).takeWhile (· != '\x7d') = p1 := by
    rw [takeWhile_append_all p1 ('\x7d' :: rest) h]
    simp [List.takeWhile_cons]
  unfold matchBoxedPayload
  rw [hdw2, htw]
  rfl

theorem matchBoxed_prefix {p1 rest : List Char} (h : p1.all (· != '\x7d') = true) :
    matchBoxed ('\\' :: 'b' :: 'o' :: 'x' :: 'e' :: 'd' :: '\x7b' :: (p1 ++ '\x7d' :: rest))
      = some (p1, rest) := by
  have hstep : matchBoxed ('\\' :: 'b' :: 'o' :: 'x' :: 'e' :: 'd' :: '\x7b' :: (p1 ++ '\x7d' :: rest))
      = matchBoxedAfterCmd ('\x7b' :: (p1 ++ '\x7d' :: rest)) := rfl
  have hbr : isPySpace '\x7b' = false := by with_unfolding_all decide
  have hdw1 : ('\x7b' :: (p1 ++ '\x7d' :: rest)).dropWhile isPySpace
      = '\x7b' :: (p1 ++ '\x7d' :: rest) := by
    simp [List.dropWhile_cons, hbr]
  rw [hstep]
  unfold matchBoxedAfterCmd
  rw [hdw1]
  exact matchBoxedPayload_prefix h

theorem subBoxedAux_boxed (p1 rest : List Char) (h : p1.all (· != '\x7d') = true) :
    subBoxedAux ('\\' :: 'b' :: 'o' :: 'x' :: 'e' :: 'd' :: '\x7b' :: (p1 ++ '\x7d' :: rest))
      = p1 ++ subBoxedAux rest := by
  unfold subBoxedAux
  have hlen : ('\\' :: 'b' :: 'o' :: 'x' :: 'e' :: 'd' :: '\x7b' :: (p1 ++ '\x7d' :: rest)).length
      = (p1.length + rest.length + 7) + 1 := by
    simp only [List.length_cons, List.length_append]
    omega
  rw [hlen]
  simp only [subBoxedAuxF, matchBoxed_prefix h]
  exact congrArg (p1 ++ ·)
    (subBoxedAuxF_irrel (p1.length + rest.length + 7) rest rest.length (by omega) (Nat.le_refl _))

/-- Python `str.strip()` restricted to the whitespace characters above. -/
def pyStrip (l : List Char) : List Char :=
  ((l.dropWhile isPySpace).reverse.dropWhile isPySpace).reverse

/-- Python `str.replace("$", "")`. -/
def removeDollars (l : List Char) : List Char :=
  l.filter (· != '$')

/-- The normalisation prefix of `MathCog._check_answer`:
`ans = self._clean_answer_latex(user_ans).strip().replace("$", "")`. -/
def normalizeAns (s : String) : List Char :=
  removeDollars (pyStrip (cleanAnswerLatexCore s.data))

/-- Rational exponentiation by squaring, driven by a fuel argument that
keeps the recursion depth logarithmic; any fuel of at least `n` computes
`q ^ n` (for `n > 0` the exponent halves each step). -/
def qpowF : Nat → ℚ → Nat → ℚ
  | 0, _, _ => 1
  | fuel+1, q, n =>
    if n = 0 then 1
    else
      let h := qpowF fuel (q * q) (n / 2)
      if n % 2 = 1 then q * h else h

def qpow (q : ℚ) (n : Nat) : ℚ :=
  qpowF (n + 1) q n

/-- Integer-exponent power on the rationals. -/
def qzpow (q : ℚ) (z : Int) : ℚ :=
  if 0 ≤ z then qpow q z.toNat else (qpow q (-z).toNat)⁻¹

/-- Tokens of the modelled arithmetic fragment of sympy's LaTeX grammar. -/
inductive LTok
  | num (q : ℚ)
  | sym (c : Char)
  | plus
  | minus
  | star
  | slash
  | lparen
  | rparen
deriving DecidableEq

def digitVal (c : Char) : ℕ :=
  c.toNat - '0'.toNat

def digitsVal (ds : List Char) : ℕ :=
  ds.foldl (fun a c => 10 * a + digitVal c) 0

def consLTok (t : LTok) : Option (List LTok) → Option (List LTok)
  | some toks => some (t :: toks)
  | none => none

/-- Tokenizer for the modelled fragment of sympy's `parse_latex` grammar:
numbers (digits with an optional decimal part — the grammar has no
e-notation, a letter `e` is an ordinary symbol), single letters as symbols,
`+ - * /` and parentheses.  Any character outside the fragment (commands,
braces, commas, underscores, `<`, quotes, ...) fails the tokenisation,
modelling a `LaTeXParsingError` raised by the parser.  Called with fuel at
least `length + 1`; every recursive call consumes at least one character. -/
def latexTokens : Nat → List Char → Option (List LTok)
  | 0, _ => none
  | _, [] => some []
  | fuel+1, c :: rest =>
    if isPySpace c then latexTokens fuel rest
    else if c.isDigit then
      let ds := c :: rest.takeWhile Char.isDigit
      match rest.dropWhile Char.isDigit with
      | '.' :: r2 =>
        let fs := r2.takeWhile Char.isDigit
        if fs.isEmpty then none
        else
          consLTok (LTok.num ((digitsVal ds : ℚ) + (digitsVal fs : ℚ) / qpow 10 fs.length))
            (latexTokens fuel (r2.dropWhile Char.isDigit))
      | r1 => consLTok (LTok.num (digitsVal ds)) (latexTokens fuel r1)
    else if c.isAlpha then consLTok (LTok.sym c) (latexTokens fuel rest)
    else if c = '+' then consLTok LTok.plus (latexTokens fuel rest)
    else if c = '-' then consLTok LTok.minus (latexTokens fuel rest)
    else if c = '*' then consLTok LTok.star (latexTokens fuel rest)
    else if c = '/' then consLTok LTok.slash (latexTokens fuel rest)
    else if c = '(' then consLTok LTok.lparen (latexTokens fuel rest)
    else if c = ')' then consLTok LTok.rparen (latexTokens fuel rest)
    else none

/-- Expressions produced by the modelled LaTeX parser. -/
inductive LExpr
  | num (q : ℚ)
  | sym (c : Char)
  | add (a b : LExpr)
  | sub (a b : LExpr)
  | mul (a b : LExpr)
  | div (a b : LExpr)
  | neg (a : LExpr)
deriving DecidableEq

mutual

def lparseExpr : Nat → List LTok → Option (LExpr × List LTok)
  | 0, _ => none
  | fuel+1, toks =>
    match lparseTerm fuel toks with
    | some (e, r) => lparseAddLoop fuel e r
    | none => none

def lparseAddLoop : Nat → LExpr → List LTok → Option (LExpr × List LTok)
  | 0, _, _ => none
  | fuel+1, acc, toks =>
    match toks with
    | LTok.plus :: r =>
      match lparseTerm fuel r with
      | some (e, r2) => lparseAddLoop fuel (LExpr.add acc e) r2
      | none => none
    | LTok.minus :: r =>
      match lparseTerm fuel r with
      | some (e, r2) => lparseAddLoop fuel (LExpr.sub acc e) r2
      | none => none
    | _ => some (acc, toks)

def lparseTerm : Nat → List LTok → Option (LExpr × List LTok)
  | 0, _ => none
  | fuel+1, toks =>
    match lparseUnary fuel toks with
    | some (e, r) => lparseMulLoop fuel e r
    | none => none

def lparseMulLoop : Nat → LExpr → List LTok → Option (LExpr × List LTok)
  | 0, _, _ => none
  | fuel+1, acc, toks =>
    match toks with
    | LTok.star :: r =>
      match lparseUnary fuel r with
      | some (e, r2) => lparseMulLoop fuel (LExpr.mul acc e) r2
      | none => none
    | LTok.slash :: r =>
      match lparseUnary fuel r with
      | some (e, r2) => lparseMulLoop fuel (LExpr.div acc e) r2
      | none => none
    | _ => some (acc, toks)

def lparseUnary : Nat → List LTok → Option (LExpr × List LTok)
  | 0, _ => none
  | fuel+1, toks =>
    match toks with
    | LTok.minus :: r =>
      match lparseUnary fuel r with
      | some (e, r2) => some (LExpr.neg e, r2)
      | none => none
    | LTok.plus :: r => lparseUnary fuel r
    | _ => lparseImplicit fuel toks

def lparseImplicit : Nat → List LTok → Option (LExpr × List LTok)
  | 0, _ => none
  | fuel+1, toks =>
    match lparsePrimary fuel toks with
    | some (e, r) => lparseImplicitLoop fuel e r
    | none => none

def lparseImplicitLoop : Nat → LExpr → List LTok → Option (LExpr × List LTok)
  | 0, _, _ => none
  | fuel+1, acc, toks =>
    match toks with
    | LTok.num _ :: _ | LTok.sym _ :: _ | LTok.lparen :: _ =>
      match lparsePrimary fuel toks with
      | some (e, r) => lparseImplicitLoop fuel (LExpr.mul acc e) r
      | none => none
    | _ => some (acc, toks)

def lparsePrimary : Nat → List LTok → Option (LExpr × List LTok)
  | 0, _ => none
  | fuel+1, toks =>
    match toks with
    | LTok.num q :: r => some (LExpr.num q, r)
    | LTok.sym c :: r => some (LExpr.sym c, r)
    | LTok.lparen :: r =>
      match lparseExpr fuel r with
      | some (e, LTok.rparen :: r2) => some (e, r2)
      | _ => none
    | _ => none

end

/-- Model of `sympy.parsing.latex.parse_latex` on the arithmetic fragment:
tokenize, parse with adjacency as implicit multiplication, and require the
whole input to be consumed.  `none` models a raised parser error. -/
def latexParse (l : List Char) : Option LExpr :=
  match latexTokens (l.length + 1) l with
  | none => none
  | some toks =>
    match lparseExpr (8 * (toks.length + 1)) toks with
    | some (e, []) => some e
    | _ => none

/-- `expr.free_symbols` is nonempty. -/
def LExpr.hasFree : LExpr → Bool
  | .num _ => false
  | .sym _ => true
  | .add a b => a.hasFree || b.hasFree
  | .sub a b => a.hasFree || b.hasFree
  | .mul a b => a.hasFree || b.hasFree
  | .div a b => a.hasFree || b.hasFree
  | .neg a => a.hasFree

/-- Model of `float(N(expr, 15))` on a symbol-free expression: exact rational
evaluation; `none` models the conversion raising (e.g. `float(zoo)` after a
division by zero). -/
def LExpr.evalQ : LExpr → Option ℚ
  | .num q => some q
  | .sym _ => none
  | .add a b =>
    match a.evalQ, b.evalQ with
    | some x, some y => some (x + y)
    | _, _ => none
  | .sub a b =>
    match a.evalQ, b.evalQ with
    | some x, some y => some (x - y)
    | _, _ => none
  | .mul a b =>
    match a.evalQ, b.evalQ with
    | some x, some y => some (x * y)
    | _, _ => none
  | .div a b =>
    match a.evalQ, b.evalQ with
    | some x, some y => if y = 0 then none else some (x / y)
    | _, _ => none
  | .neg a =>
    match a.evalQ with
    | some x => some (-x)
    | none => none

/-- Outcome of the sympy branch of `_check_answer`: the parser raised
(`err`, leading to the `eval` fallback), the parsed expression had free
symbols (`invalidFree`, an immediate invalid verdict), or a numeric value
was obtained. -/
inductive SymOut
  | err
  | invalidFree
  | val (q : ℚ)
deriving DecidableEq

def sympyStage (ans : List Char) : SymOut :=
  match latexParse ans with
  | none => .err
  | some e =>
    if e.hasFree then .invalidFree
    else
      match e.evalQ with
      | none => .err
      | some q => .val q

/-- Python float model: exact finite rationals plus the IEEE special values.
Finite arithmetic is modelled exactly (no rounding), with overflow to the
infinities at the double-precision bound. -/
inductive PyFloat
  | finite (q : ℚ)
  | inf
  | ninf
  | nan
deriving DecidableEq

/-- Overflow bound of IEEE double precision (approximated as `2 ^ 1024`). -/
def dblLimit : ℚ :=
  qpow 2 1024

/-- Clamp an exact rational result to the float range. -/
def flOverflow (q : ℚ) : PyFloat :=
  if q ≥ dblLimit then .inf else if q ≤ -dblLimit then .ninf else .finite q

def pfNeg : PyFloat → PyFloat
  | .finite q => .finite (-q)
  | .inf => .ninf
  | .ninf => .inf
  | .nan => .nan

def pfAdd : PyFloat → PyFloat → PyFloat
  | .nan, _ => .nan
  | _, .nan => .nan
  | .inf, .ninf => .nan
  | .ninf, .inf => .nan
  | .inf, _ => .inf
  | _, .inf => .inf
  | .ninf, _ => .ninf
  | _, .ninf => .ninf
  | .finite a, .finite b => flOverflow (a + b)

def pfSub (a b : PyFloat) : PyFloat :=
  pfAdd a (pfNeg b)

def pfMul : PyFloat → PyFloat → PyFloat
  | .nan, _ => .nan
  | _, .nan => .nan
  | .inf, .inf => .inf
  | .inf, .ninf => .ninf
  | .ninf, .inf => .ninf
  | .ninf, .ninf => .inf
  | .inf, .finite b => if b = 0 then .nan else if b > 0 then .inf else .ninf
  | .finite a, .inf => if a = 0 then .nan else if a > 0 then .inf else .ninf
  | .ninf, .finite b => if b = 0 then .nan else if b > 0 then .ninf else .inf
  | .finite a, .ninf => if a = 0 then .nan else if a > 0 then .ninf else .inf
  | .finite a, .finite b => flOverflow (a * b)

/-- Python float division; callers guarantee the divisor is not zero (a zero
divisor raises ZeroDivisionError before this is reached).  Signed zeros are
not modelled: a finite value divided by an infinity collapses to `0`. -/
def pfDiv : PyFloat → PyFloat → PyFloat
  | .nan, _ => .nan
  | _, .nan => .nan
  | .inf, .inf => .nan
  | .inf, .ninf => .nan
  | .ninf, .inf => .nan
  | .ninf, .ninf => .nan
  | .inf, .finite b => if b > 0 then .inf else .ninf
  | .ninf, .finite b => if b > 0 then .ninf else .inf
  | .finite _, .inf => .finite 0
  | .finite _, .ninf => .finite 0
  | .finite a, .finite b => flOverflow (a / b)

def pfAbs : PyFloat → PyFloat
  | .finite q => .finite |q|
  | .inf => .inf
  | .ninf => .inf
  | .nan => .nan

/-- IEEE `<` on the float model: any comparison involving NaN is false. -/
def pfLt : PyFloat → PyFloat → Bool
  | .nan, _ => false
  | _, .nan => false
  | .finite a, .finite b => decide (a < b)
  | .finite _, .inf => true
  | .finite _, .ninf => false
  | .inf, _ => false
  | .ninf, .ninf => false
  | .ninf, _ => true

/-- Values the modelled fragment of Python `eval` can produce. -/
inductive PyVal
  | int (z : ℤ)
  | float (f : PyFloat)
  | tuple
deriving DecidableEq

/-- The `isinstance(val, (int, float))` test of `_check_answer`. -/
def isIntOrFloat : PyVal → Bool
  | .int _ => true
  | .float _ => true
  | .tuple => false

/-- Conversion of a numeric `PyVal` to the float model, as performed
implicitly by `abs(val - float(...))`; only called after `isIntOrFloat`
holds (the `tuple` case is unreachable there). -/
def toPyFloatD : PyVal → PyFloat
  | .int z => .finite z
  | .float f => f
  | .tuple => .nan

def pyIsZero : PyVal → Bool
  | .int z => decide (z = 0)
  | .float (.finite q) => decide (q = 0)
  | _ => false

def pyAdd : PyVal → PyVal → Option PyVal
  | .int a, .int b => some (.int (a + b))
  | .int a, .float g => some (.float (pfAdd (.finite a) g))
  | .float f, .int b => some (.float (pfAdd f (.finite b)))
  | .float f, .float g => some (.float (pfAdd f g))
  | _, _ => none

def pySub : PyVal → PyVal → Option PyVal
  | .int a, .int b => some (.int (a - b))
  | .int a, .float g => some (.float (pfSub (.finite a) g))
  | .float f, .int b => some (.float (pfSub f (.finite b)))
  | .float f, .float g => some (.float (pfSub f g))
  | _, _ => none

def pyMul : PyVal → PyVal → Option PyVal
  | .int a, .int b => some (.int (a * b))
  | .int a, .float g => some (.float (pfMul (.finite a) g))
  | .float f, .int b => some (.float (pfMul f (.finite b)))
  | .float f, .float g => some (.float (pfMul f g))
  | _, _ => none

/-- Python `/` (true division): always a float on numbers; a zero divisor
raises ZeroDivisionError (`none`). -/
def pyDiv (a b : PyVal) : Option PyVal :=
  if pyIsZero b then none
  else
    match a, b with
    | .int x, .int y => some (.float (pfDiv (.finite x) (.finite y)))
    | .int x, .float g => some (.float (pfDiv (.finite x) g))
    | .float f, .int y => some (.float (pfDiv f (.finite y)))
    | .float f, .float g => some (.float (pfDiv f g))
    | _, _ => none

/-- Python `**` on a float base with an integer exponent.  A finite result
beyond the double range raises OverflowError (`none`), matching CPython. -/
def pfPowInt (f : PyFloat) (b : ℤ) : Option PyFloat :=
  match f with
  | .nan => some (if b = 0 then .finite 1 else .nan)
  | .inf => some (if b = 0 then .finite 1 else if b > 0 then .inf else .finite 0)
  | .ninf =>
    some (if b = 0 then .finite 1
      else if b > 0 then (if b % 2 = 0 then .inf else .ninf)
      else .finite 0)
  | .finite q =>
    if q = 0 ∧ b < 0 then none
    else
      let r := qzpow q b
      if r ≥ dblLimit ∨ r ≤ -dblLimit then none else some (.finite r)

/-- Python `**` on the modelled values.  Only integer exponents are in the
fragment; a float exponent is treated as evaluation failure. -/
def pyPow : PyVal → PyVal → Option PyVal
  | .int a, .int b =>
    if 0 ≤ b then some (.int (a ^ b.toNat))
    else if a = 0 then none
    else some (.float (flOverflow (qzpow (a : ℚ) b)))
  | .float f, .int b =>
    match pfPowInt f b with
    | some g => some (.float g)
    | none => none
  | _, _ => none

def pyNeg : PyVal → Option PyVal
  | .int z => some (.int (-z))
  | .float f => some (.float (pfNeg f))
  | .tuple => none

/-- Tokens of the modelled Python expression fragment. -/
inductive PTok
  | intL (n : ℕ)
  | floatL (q : ℚ)
  | plus
  | minus
  | star
  | slash
  | dstar
  | lparen
  | rparen
  | comma
deriving DecidableEq

/-- Scale a literal mantissa by an optional decimal exponent. -/
def applyExpo (base : ℚ) : Option ℤ → ℚ
  | none => base
  | some e => base * qzpow 10 e

/-- Scan the exponent suffix of a Python numeric literal, `[eE][+-]?digits`.
Returns `some (none, l)` when no exponent is present, `some (some z, rest)`
for exponent `z`, and `none` for a malformed exponent (a SyntaxError). -/
def pyExpo (l : List Char) : Option (Option ℤ × List Char) :=
  match l with
  | 'e' :: r =>
    match r with
    | '+' :: r2 =>
      let ds := r2.takeWhile Char.isDigit
      if ds.isEmpty then none
      else some (some (digitsVal ds), r2.dropWhile Char.isDigit)
    | '-' :: r2 =>
      let ds := r2.takeWhile Char.isDigit
      if ds.isEmpty then none
      else some (some (-(digitsVal ds : ℤ)), r2.dropWhile Char.isDigit)
    | _ =>
      let ds := r.takeWhile Char.isDigit
      if ds.isEmpty then none
      else some (some (digitsVal ds), r.dropWhile Char.isDigit)
  | 'E' :: r =>
    match r with
    | '+' :: r2 =>
      let ds := r2.takeWhile Char.isDigit
      if ds.isEmpty then none
      else some (some (digitsVal ds), r2.dropWhile Char.isDigit)
    | '-' :: r2 =>
      let ds := r2.takeWhile Char.isDigit
      if ds.isEmpty then none
      else some (some (-(digitsVal ds : ℤ)), r2.dropWhile Char.isDigit)
    | _ =>
      let ds := r.takeWhile Char.isDigit
      if ds.isEmpty then none
      else some (some (digitsVal ds), r.dropWhile Char.isDigit)
  | _ => some (none, l)

/-- Scan a Python numeric literal whose integer part `ip` has already been
consumed: optional fractional part, then optional exponent.  An `intL`
token results when neither is present, otherwise a `floatL` token with the
exact literal value. -/
def pyNumTok (ip : List Char) (r1 : List Char) : Option (PTok × List Char) :=
  match r1 with
  | '.' :: r2 =>
    let fs := r2.takeWhile Char.isDigit
    match pyExpo (r2.dropWhile Char.isDigit) with
    | none => none
    | some (eo, r4) =>
      some (PTok.floatL (applyExpo ((digitsVal ip : ℚ) + (digitsVal fs : ℚ) / qpow 10 fs.length) eo), r4)
  | _ =>
    match pyExpo r1 with
    | none => none
    | some (none, r4) => some (PTok.intL (digitsVal ip), r4)
    | some (some e, r4) => some (PTok.floatL (applyExpo (digitsVal ip) (some e)), r4)

def consPTok (t : PTok) : Option (List PTok) → Option (List PTok)
  | some toks => some (t :: toks)
  | none => none

/-- Tokenizer for the identifier-free arithmetic fragment of Python
expressions.  Any character outside the fragment — a letter, underscore,
quote, bracket, dot not preceded by digits, etc. — fails the whole
tokenisation, modelling the NameError/SyntaxError that
`eval(ans, ..., ...)` raises on such input (and which `_check_answer`
catches).  Called with fuel at least `length + 1`. -/
def pyTokens : Nat → List Char → Option (List PTok)
  | 0, _ => none
  | _, [] => some []
  | fuel+1, c :: rest =>
    if isPySpace c then pyTokens fuel rest
    else if c.isDigit then
      match pyNumTok (c :: rest.takeWhile Char.isDigit) (rest.dropWhile Char.isDigit) with
      | none => none
      | some (t, r) => consPTok t (pyTokens fuel r)
    else if c = '*' then
      match rest with
      | '*' :: r => consPTok PTok.dstar (pyTokens fuel r)
      | _ => consPTok PTok.star (pyTokens fuel rest)
    else if c = '+' then consPTok PTok.plus (pyTokens fuel rest)
    else if c = '-' then consPTok PTok.minus (pyTokens fuel rest)
    else if c = '/' then consPTok PTok.slash (pyTokens fuel rest)
    else if c = '(' then consPTok PTok.lparen (pyTokens fuel rest)
    else if c = ')' then consPTok PTok.rparen (pyTokens fuel rest)
    else if c = ',' then consPTok PTok.comma (pyTokens fuel rest)
    else none

/-- Expressions of the modelled Python fragment. -/
inductive PyExpr
  | intL (n : ℕ)
  | floatL (q : ℚ)
  | add (a b : PyExpr)
  | sub (a b : PyExpr)
  | mul (a b : PyExpr)
  | div (a b : PyExpr)
  | pow (a b : PyExpr)
  | neg (a : PyExpr)
  | tup (a b : PyExpr)
deriving DecidableEq

mutual

def pparseExpr : Nat → List PTok → Option (PyExpr × List PTok)
  | 0, _ => none
  | fuel+1, toks =>
    match pparseTerm fuel toks with
    | some (e, r) => pparseAddLoop fuel e r
    | none => none

def pparseAddLoop : Nat → PyExpr → List PTok → Option (PyExpr × List PTok)
  | 0, _, _ => none
  | fuel+1, acc, toks =>
    match toks with
    | PTok.plus :: r =>
      match pparseTerm fuel r with
      | some (e, r2) => pparseAddLoop fuel (PyExpr.add acc e) r2
      | none => none
    | PTok.minus :: r =>
      match pparseTerm fuel r with
      | some (e, r2) => pparseAddLoop fuel (PyExpr.sub acc e) r2
      | none => none
    | _ => some (acc, toks)

def pparseTerm : Nat → List PTok → Option (PyExpr × List PTok)
  | 0, _ => none
  | fuel+1, toks =>
    match pparseUnary fuel toks with
    | some (e, r) => pparseMulLoop fuel e r
    | none => none

def pparseMulLoop : Nat → PyExpr → List PTok → Option (PyExpr × List PTok)
  | 0, _, _ => none
  | fuel+1, acc, toks =>
    match toks with
    | PTok.star :: r =>
      match pparseUnary fuel r with
      | some (e, r2) => pparseMulLoop fuel (PyExpr.mul acc e) r2
      | none => none
    | PTok.slash :: r =>
      match pparseUnary fuel r with
      | some (e, r2) => pparseMulLoop fuel (PyExpr.div acc e) r2
      | none => none
    | _ => some (acc, toks)

def pparseUnary : Nat → List PTok → Option (PyExpr × List PTok)
  | 0, _ => none
  | fuel+1, toks =>
    match toks with
    | PTok.minus :: r =>
      match pparseUnary fuel r with
      | some (e, r2) => some (PyExpr.neg e, r2)
      | none => none
    | PTok.plus :: r => pparseUnary fuel r
    | _ => pparsePower fuel toks

def pparsePower : Nat → List PTok → Option (PyExpr × List PTok)
  | 0, _ => none
  | fuel+1, toks =>
    match pparsePrimary fuel toks with
    | some (b, PTok.dstar :: r) =>
      match pparseUnary fuel r with
      | some (e, r2) => some (PyExpr.pow b e, r2)
      | none => none
    | other => other

def pparsePrimary : Nat → List PTok → Option (PyExpr × List PTok)
  | 0, _ => none
  | fuel+1, toks =>
    match toks with
    | PTok.intL n :: r => some (PyExpr.intL n, r)
    | PTok.floatL q :: r => some (PyExpr.floatL q, r)
    | PTok.lparen :: r =>
      match pparseExpr fuel r with
      | some (e, PTok.rparen :: r2) => some (e, r2)
      | some (e, PTok.comma :: r2) =>
        match pparseExpr fuel r2 with
        | some (e2, PTok.rparen :: r3) => some (PyExpr.tup e e2, r3)
        | _ => none
      | _ => none
    | _ => none

end

def pyEvalExpr : PyExpr → Option PyVal
  | .intL n => some (.int n)
  | .floatL q => some (.float (flOverflow q))
  | .add a b =>
    match pyEvalExpr a, pyEvalExpr b with
    | some x, some y => pyAdd x y
    | _, _ => none
  | .sub a b =>
    match pyEvalExpr a, pyEvalExpr b with
    | some x, some y => pySub x y
    | _, _ => none
  | .mul a b =>
    match pyEvalExpr a, pyEvalExpr b with
    | some x, some y => pyMul x y
    | _, _ => none
  | .div a b =>
    match pyEvalExpr a, pyEvalExpr b with
    | some x, some y => pyDiv x y
    | _, _ => none
  | .pow a b =>
    match pyEvalExpr a, pyEvalExpr b with
    | some x, some y => pyPow x y
    | _, _ => none
  | .neg a =>
    match pyEvalExpr a with
    | some x => pyNeg x
    | none => none
  | .tup a b =>
    match pyEvalExpr a, pyEvalExpr b with
    | some _, some _ => some .tuple
    | _, _ => none

/-- The fallback branch of `_check_answer`:
`val = eval(ans, {"__builtins__": None}, {})`, modelled on the
identifier-free arithmetic fragment; `none` models any exception escaping
`eval` (caught by the surrounding `except`). -/
def pyEval (l : List Char) : Option PyVal :=
  match pyTokens (l.length + 1) l with
  | none => none
  | some toks =>
    match pparseExpr (8 * (toks.length + 1)) toks with
    | some (e, []) => pyEvalExpr e
    | _ => none

/-- The absolute tolerance `1e-6` of `_check_answer`. -/
def tol : ℚ :=
  1 / 1000000

/-- `MathCog._check_answer(user_ans, correct_expr)`, with the canonical
answer already reduced to the rational `correct` (the code computes
`float(N(correct_expr, 15))`; problem answers are symbol-free numbers).
The sympy branch compares exact rationals; the `eval` fallback compares in
the float model, as the code does with `abs(val - ...) < 1e-6`. -/
def checkAnswer (userAns : String) (correct : ℚ) : Verdict :=
  match sympyStage (normalizeAns userAns) with
  | .invalidFree => .invalid
  | .val q => if |q - correct| < tol then .correct else .wrong
  | .err =>
    match pyEval (normalizeAns userAns) with
    | none => .invalid
    | some v =>
      if isIntOrFloat v then
        if pfLt (pfAbs (pfSub (toPyFloatD v) (.finite correct))) (.finite tol) then .correct
        else .wrong
      else .invalid

theorem checkAnswer_val {userAns : String} {correct q : ℚ}
    (h : sympyStage (normalizeAns userAns) = SymOut.val q) :
    checkAnswer userAns correct = if |q - correct| < tol then .correct else .wrong := by
  unfold checkAnswer
  rw [h]

theorem checkAnswer_err_some {userAns : String} {correct : ℚ} {v : PyVal}
    (h : sympyStage (normalizeAns userAns) = SymOut.err)
    (he : pyEval (normalizeAns userAns) = some v) :
    checkAnswer userAns correct =
      if isIntOrFloat v then
        if pfLt (pfAbs (pfSub (toPyFloatD v) (.finite correct))) (.finite tol) then .correct
        else .wrong
      else .invalid := by
  unfold checkAnswer
  rw [h, he]

/-- Per-user active problem map (`self.active : Dict[int, int]`). -/
abbrev ActiveMap := Nat → Option Nat

/-- Leaderboard rows: user id to (solved, attempted). -/
abbrev Ledger := Nat → Option (Nat × Nat)

/-- The mutable state the math commands touch. -/
structure BotState where
  active : ActiveMap
  ledger : Ledger

/-- The user-visible outcome of a command invocation. -/
inductive BotMsg
  | alreadyActive
  | noProblems
  | problemIssued
  | noActive
  | invalidFormat
  | incorrect
  | correctSolved
  | solutionShown
deriving DecidableEq

/-- `MathCog._update_leaderboard`: an upsert of the two increments.  `ok`
models whether the sqlite execute/commit succeeds; on failure the
`sqlite3.Error` is caught inside the method and only logged, so the ledger
is unchanged and no error reaches the caller. -/
def updateLeaderboard (ok : Bool) (uid : Nat) (solvedInc attemptedInc : Nat)
    (led : Ledger) : Ledger :=
  if ok then
    fun u =>
      if u = uid then
        match led uid with
        | none => some (solvedInc, attemptedInc)
        | some (s, a) => some (s + solvedInc, a + attemptedInc)
      else led u
  else led

/-- `MathCog.math_problem` after argument parsing: `fetched` is the result
of `_get_random_problem`.  The command refuses to open a second session and
stores the problem id otherwise. -/
def mathProblem (uid : Nat) (fetched : Option Nat) (st : BotState) : BotState × BotMsg :=
  match st.active uid with
  | some _ => (st, .alreadyActive)
  | none =>
    match fetched with
    | none => (st, .noProblems)
    | some pid =>
      ({ st with active := fun u => if u = uid then some pid else st.active u },
        .problemIssued)

/-- `MathCog.math_submit`: `answerOf pid` is the canonical answer of problem
`pid` (`parse_latex(row["answer_tex"])` reduced to a rational — ingestion
only stores symbol-free answers). -/
def mathSubmit (dbOk : Bool) (answerOf : Nat → ℚ) (uid : Nat) (ans : String)
    (st : BotState) : BotState × BotMsg :=
  match st.active uid with
  | none => (st, .noActive)
  | some pid =>
    match checkAnswer ans (answerOf pid) with
    | .invalid => (st, .invalidFormat)
    | .wrong => (st, .incorrect)
    | .correct =>
      ({ active := fun u => if u = uid then none else st.active u,
         ledger := updateLeaderboard dbOk uid 1 1 st.ledger }, .correctSolved)

/-- `MathCog.math_giveup`. -/
def mathGiveup (dbOk : Bool) (uid : Nat) (st : BotState) : BotState × BotMsg :=
  match st.active uid with
  | none => (st, .noActive)
  | some _ =>
    ({ active := fun u => if u = uid then none else st.active u,
       ledger := updateLeaderboard dbOk uid 0 1 st.ledger }, .solutionShown)

/-- The ledger writes the program performs: a correct submission records
`solved+1, attempted+1` and a give-up records `solved+0, attempted+1`;
`ok` is whether the underlying sqlite write succeeds. -/
inductive LedgerEvent
  | solve (ok : Bool) (uid : Nat)
  | giveup (ok : Bool) (uid : Nat)

def applyEvent (ev : LedgerEvent) (led : Ledger) : Ledger :=
  match ev with
  | .solve ok uid => updateLeaderboard ok uid 1 1 led
  | .giveup ok uid => updateLeaderboard ok uid 0 1 led

def emptyLedger : Ledger :=
  fun _ => none

def applyEvents (evs : List LedgerEvent) (led : Ledger) : Ledger :=
  evs.foldl (fun l e => applyEvent e l) led

/-- Every entry of the ledger satisfies `solved ≤ attempted`. -/
def LedgerOK (led : Ledger) : Prop :=
  ∀ uid s a, led uid = some (s, a) → s ≤ a

theorem updateLeaderboard_preserves {led : Ledger} (hok : LedgerOK led)
    (ok : Bool) (uid si ai : Nat) (hinc : si ≤ ai) :
    LedgerOK (updateLeaderboard ok uid si ai led) := by
  intro u s a h
  cases ok with
  | false =>
    simp only [updateLeaderboard, Bool.false_eq_true, if_false] at h
    exact hok u s a h
  | true =>
    simp only [updateLeaderboard, if_true] at h
    by_cases hu : u = uid
    · rw [if_pos hu] at h
      cases hl : led uid with
      | none =>
        rw [hl] at h
        simp only [Option.some.injEq, Prod.mk.injEq] at h
        omega
      | some p =>
        obtain ⟨s0, a0⟩ := p
        rw [hl] at h
        simp only [Option.some.injEq, Prod.mk.injEq] at h
        have := hok uid s0 a0 hl
        omega
    · rw [if_neg hu] at h
      exact hok u s a h

theorem applyEvent_preserves {led : Ledger} (hok : LedgerOK led) (ev : LedgerEvent) :
    LedgerOK (applyEvent ev led) := by
  cases ev with
  | solve ok uid => exact updateLeaderboard_preserves hok ok uid 1 1 (by omega)
  | giveup ok uid => exact updateLeaderboard_preserves hok ok uid 0 1 (by omega)

theorem applyEvents_preserves :
    ∀ (evs : List LedgerEvent) (led : Ledger), LedgerOK led → LedgerOK (applyEvents evs led)
  | [], _, hok => hok
  | ev :: evs, _, hok => applyEvents_preserves evs _ (applyEvent_preserves hok ev)

theorem cleanCore_id {l : List Char} (h1 : hasBoxedMatch l = false)
    (h2 : hasDD l = false) : cleanAnswerLatexCore l = l := by
  unfold cleanAnswerLatexCore
  rw [subBoxedAux_id l h1, replaceDD_id l h2]

theorem mathProblem_already {st : BotState} {uid pid : Nat} (fetched : Option Nat)
    (h : st.active uid = some pid) :
    mathProblem uid fetched st = (st, BotMsg.alreadyActive) := by
  unfold mathProblem
  rw [h]

theorem mathProblem_open {st : BotState} {uid : Nat} (pid : Nat)
    (h : st.active uid = none) :
    mathProblem uid (some pid) st
      = ({ st with active := fun u => if u = uid then some pid else st.active u },
          BotMsg.problemIssued) := by
  unfold mathProblem
  rw [h]

theorem mathSubmit_eq {dbOk : Bool} {f : Nat → ℚ} {uid : Nat} {ans : String}
    {st : BotState} {pid : Nat} (hact : st.active uid = some pid) :
    mathSubmit dbOk f uid ans st =
      match checkAnswer ans (f pid) with
      | .invalid => (st, .invalidFormat)
      | .wrong => (st, .incorrect)
      | .correct =>
        ({ active := fun u => if u = uid then none else st.active u,
           ledger := updateLeaderboard dbOk uid 1 1 st.ledger }, .correctSolved) := by
  unfold mathSubmit
  rw [hact]

/-- Claim C2, counterexample: the normalizer is not idempotent for every
string.  For `"$$$$"` one application collapses the first two and the last
two dollars to `"$$"`, and a second application collapses that to `"$"`. -/
theorem c2_normalize_not_idempotent :
    cleanAnswerLatex (cleanAnswerLatex "$$$$") ≠ cleanAnswerLatex "$$$$" := by
  decide

/-- Claim C2, amended: the normalizer is idempotent on every string whose
normalized form contains no further boxed-wrapper match and no doubled
dollar pair (the spec's own proviso "once no further boxed/doubled
patterns remain"). -/
theorem c2_normalize_idempotent_when_clean (s : String)
    (h1 : hasBoxedMatch (cleanAnswerLatex s).data = false)
    (h2 : hasDD (cleanAnswerLatex s).data = false) :
    cleanAnswerLatex (cleanAnswerLatex s) = cleanAnswerLatex s :=
  congrArg String.mk (cleanCore_id h1 h2)

/-- Concrete instantiation of the amended idempotence claim at `"$5$"`. -/
theorem c2_normalize_idempotent_when_clean_witness :
    hasBoxedMatch (cleanAnswerLatex "$5$").data = false
    ∧ hasDD (cleanAnswerLatex "$5$").data = false
    ∧ cleanAnswerLatex (cleanAnswerLatex "$5$") = cleanAnswerLatex "$5$" :=
  ⟨by with_unfolding_all decide, by with_unfolding_all decide,
    c2_normalize_idempotent_when_clean "$5$" (by with_unfolding_all decide) (by with_unfolding_all decide)⟩

/-- Claim C3, counterexample: with a failing ledger write (`dbOk = false`) a
correct submission still reports success while the increment is lost: user
7 with active problem 1 (canonical answer 5) submits "5"; the command
answers `correctSolved`, yet the ledger still has no entry for the user. -/
theorem c3_storage_failure_reports_success :
    (mathSubmit false (fun _ => 5) 7 "5"
        ⟨fun u => if u = 7 then some 1 else none, fun _ => none⟩).2 = BotMsg.correctSolved
    ∧ (mathSubmit false (fun _ => 5) 7 "5"
        ⟨fun u => if u = 7 then some 1 else none, fun _ => none⟩).1.ledger 7 = none := by
  exact ⟨by with_unfolding_all decide, by with_unfolding_all decide⟩

/-- Claim C3, amended: `_update_leaderboard` catches a storage failure and
only logs it, so a correct submission whose write fails still reports
success and leaves the ledger unchanged — the increment is silently
dropped and no error is propagated to the caller. -/
theorem c3_failed_write_swallowed (f : Nat → ℚ) (uid : Nat) (ans : String)
    (st : BotState) (pid : Nat) (hact : st.active uid = some pid)
    (hcheck : checkAnswer ans (f pid) = Verdict.correct) :
    (mathSubmit false f uid ans st).2 = BotMsg.correctSolved
    ∧ (mathSubmit false f uid ans st).1.ledger = st.ledger := by
  rw [mathSubmit_eq hact, hcheck]
  exact ⟨rfl, rfl⟩

/-- Concrete instantiation of the failed-write claim. -/
theorem c3_failed_write_swallowed_witness :
    ((⟨fun u => if u = 2 then some 0 else none, fun _ => none⟩ : BotState).active 2 = some 0)
    ∧ checkAnswer "5" ((fun _ => (5 : ℚ)) 0) = Verdict.correct
    ∧ ((mathSubmit false (fun _ => (5 : ℚ)) 2 "5"
          ⟨fun u => if u = 2 then some 0 else none, fun _ => none⟩).2 = BotMsg.correctSolved
        ∧ (mathSubmit false (fun _ => (5 : ℚ)) 2 "5"
            ⟨fun u => if u = 2 then some 0 else none, fun _ => none⟩).1.ledger
          = (⟨fun u => if u = 2 then some 0 else none, fun _ => none⟩ : BotState).ledger) :=
  ⟨rfl, by with_unfolding_all decide,
    c3_failed_write_swallowed (fun _ => (5 : ℚ)) 2 "5"
      ⟨fun u => if u = 2 then some 0 else none, fun _ => none⟩ 0 rfl (by with_unfolding_all decide)⟩

/-- Claim C4: the check returns `correct` exactly when the parsed value is
within strict absolute tolerance `1e-6` of the canonical answer — in the
sympy branch by exact comparison, in the `eval` fallback by the float
comparison — and at the boundary a value differing by exactly `1e-6` is
`wrong` while one differing by `9.9e-7` is `correct`. -/
theorem c4_tolerance_boundary :
    (∀ (ansStr : String) (correct q : ℚ),
        sympyStage (normalizeAns ansStr) = SymOut.val q →
        (checkAnswer ansStr correct = Verdict.correct ↔ |q - correct| < 1 / 1000000))
    ∧ (∀ (ansStr : String) (correct : ℚ) (v : PyVal),
        sympyStage (normalizeAns ansStr) = SymOut.err →
        pyEval (normalizeAns ansStr) = some v →
        isIntOrFloat v = true →
        (checkAnswer ansStr correct = Verdict.correct
          ↔ pfLt (pfAbs (pfSub (toPyFloatD v) (PyFloat.finite correct)))
              (PyFloat.finite (1 / 1000000)) = true))
    ∧ checkAnswer "5.000001" 5 = Verdict.wrong
    ∧ checkAnswer "5.00000099" 5 = Verdict.correct := by
  refine ⟨?_, ?_, by with_unfolding_all decide, by with_unfolding_all decide⟩
  · intro ansStr correct q h
    rw [checkAnswer_val h]
    constructor
    · intro hc
      by_cases hlt : |q - correct| < tol
      · exact hlt
      · rw [if_neg hlt] at hc
        exact absurd hc (by decide)
    · intro hlt
      have hlt2 : |q - correct| < tol := hlt
      rw [if_pos hlt2]
  · intro ansStr correct v herr hev hni
    rw [checkAnswer_err_some herr hev, if_pos hni]
    constructor
    · intro hc
      by_cases hlt : pfLt (pfAbs (pfSub (toPyFloatD v) (PyFloat.finite correct)))
          (PyFloat.finite tol) = true
      · exact hlt
      · rw [if_neg hlt] at hc
        exact absurd hc (by decide)
    · intro hlt
      have hlt2 : pfLt (pfAbs (pfSub (toPyFloatD v) (PyFloat.finite correct)))
          (PyFloat.finite tol) = true := hlt
      rw [if_pos hlt2]

/-- Instantiation of the tolerance claim at input "5", canonical 5. -/
theorem c4_tolerance_boundary_witness :
    sympyStage (normalizeAns "5") = SymOut.val 5
    ∧ (checkAnswer "5" (5 : ℚ) = Verdict.correct ↔ |(5 : ℚ) - 5| < 1 / 1000000) :=
  ⟨by with_unfolding_all decide, c4_tolerance_boundary.1 "5" 5 5 (by with_unfolding_all decide)⟩

/-- Claim C5: against canonical answer 5 the inputs "5", "$5$", the boxed
form of "5" and "2+3" are accepted as `correct`, and "6" is `wrong`. -/
theorem c5_acceptance_rejection :
    checkAnswer "5" 5 = Verdict.correct
    ∧ checkAnswer "$5$" 5 = Verdict.correct
    ∧ checkAnswer "\\boxed\x7b5\x7d" 5 = Verdict.correct
    ∧ checkAnswer "2+3" 5 = Verdict.correct
    ∧ checkAnswer "6" 5 = Verdict.wrong := by
  exact ⟨by with_unfolding_all decide, by with_unfolding_all decide, by with_unfolding_all decide, by with_unfolding_all decide, by with_unfolding_all decide⟩

/-- Claim C6: opening a problem while one is active answers "already
active" and changes nothing — in particular the stored problem reference
from the first open survives the second attempt. -/
theorem c6_double_open_fails (st : BotState) (uid p1 p2 : Nat)
    (h : st.active uid = none) :
    (mathProblem uid (some p2) (mathProblem uid (some p1) st).1).2 = BotMsg.alreadyActive
    ∧ (mathProblem uid (some p1) st).1.active uid = some p1
    ∧ (mathProblem uid (some p2) (mathProblem uid (some p1) st).1).1
        = (mathProblem uid (some p1) st).1 := by
  have h1 := mathProblem_open p1 h
  have hact : (mathProblem uid (some p1) st).1.active uid = some p1 := by
    rw [h1]
    simp
  have h2 := mathProblem_already (some p2) hact
  exact ⟨by rw [h2], hact, by rw [h2]⟩

/-- Concrete instantiation of the double-open claim. -/
theorem c6_double_open_fails_witness :
    ((⟨fun _ => none, fun _ => none⟩ : BotState).active 1 = none)
    ∧ ((mathProblem 1 (some 3)
          (mathProblem 1 (some 2) ⟨fun _ => none, fun _ => none⟩).1).2 = BotMsg.alreadyActive
        ∧ (mathProblem 1 (some 2) ⟨fun _ => none, fun _ => none⟩).1.active 1 = some 2
        ∧ (mathProblem 1 (some 3)
            (mathProblem 1 (some 2) ⟨fun _ => none, fun _ => none⟩).1).1
          = (mathProblem 1 (some 2) ⟨fun _ => none, fun _ => none⟩).1) :=
  ⟨rfl, c6_double_open_fails ⟨fun _ => none, fun _ => none⟩ 1 2 3 rfl⟩

/-- Claim C7: a submission judged InvalidFormat changes nothing — the state
(active problem map and ledger) is returned untouched together with the
format-error message. -/
theorem c7_invalid_no_state_change (dbOk : Bool) (f : Nat → ℚ) (uid : Nat)
    (ans : String) (st : BotState) (pid : Nat)
    (hact : st.active uid = some pid)
    (hcheck : checkAnswer ans (f pid) = Verdict.invalid) :
    mathSubmit dbOk f uid ans st = (st, BotMsg.invalidFormat) := by
  rw [mathSubmit_eq hact, hcheck]

/-- Concrete instantiation of the InvalidFormat claim at input "five". -/
theorem c7_invalid_no_state_change_witness :
    ((⟨fun u => if u = 1 then some 0 else none, fun _ => none⟩ : BotState).active 1 = some 0)
    ∧ checkAnswer "five" ((fun _ => (5 : ℚ)) 0) = Verdict.invalid
    ∧ mathSubmit true (fun _ => (5 : ℚ)) 1 "five"
        ⟨fun u => if u = 1 then some 0 else none, fun _ => none⟩
      = (⟨fun u => if u = 1 then some 0 else none, fun _ => none⟩, BotMsg.invalidFormat) :=
  ⟨rfl, by with_unfolding_all decide,
    c7_invalid_no_state_change true (fun _ => (5 : ℚ)) 1 "five"
      ⟨fun u => if u = 1 then some 0 else none, fun _ => none⟩ 0 rfl (by with_unfolding_all decide)⟩

/-- Claim C8: starting from the empty ledger, any sequence of the ledger
writes the program performs (correct submissions and give-ups, each of
which may also fail and be swallowed) leaves every existing entry with
`solved ≤ attempted`. -/
theorem c8_solved_le_attempted (evs : List LedgerEvent) (uid s a : Nat)
    (h : applyEvents evs emptyLedger uid = some (s, a)) : s ≤ a :=
  applyEvents_preserves evs emptyLedger (fun _ _ _ hx => Option.noConfusion hx) uid s a h

/-- Concrete instantiation of the ledger invariant after a solve and a
give-up. -/
theorem c8_solved_le_attempted_witness :
    applyEvents [LedgerEvent.solve true 1, LedgerEvent.giveup true 1] emptyLedger 1
      = some (1, 2)
    ∧ 1 ≤ 2 :=
  ⟨rfl, c8_solved_le_attempted [LedgerEvent.solve true 1, LedgerEvent.giveup true 1] 1 1 2 rfl⟩

/-- Claim C9, counterexample: the submission "1e999**1-1e999**1" makes the
LaTeX parse raise (at `**`), and the `eval` fallback produces the float NaN
(inf minus inf), which passes the `isinstance(val, (int, float))` test;
the comparison `nan < 1e-6` is false, so the check answers `wrong`
(Incorrect) — not `invalid` as the claim requires for a NaN value. -/
theorem c9_nan_yields_wrong :
    pyEval (normalizeAns "1e999**1-1e999**1") = some (PyVal.float PyFloat.nan)
    ∧ checkAnswer "1e999**1-1e999**1" 5 = Verdict.wrong := by
  exact ⟨by with_unfolding_all decide, by with_unfolding_all decide⟩

/-- Claim C9, amended: when the sympy branch raises and the fallback
evaluation yields a value that is not an int or float (e.g. a tuple), the
verdict is `invalid`; but a NaN float passes the numeric-type test and
yields `wrong` (Incorrect) because every NaN comparison is false. -/
theorem c9_nonreal_handling :
    (∀ (ansStr : String) (correct : ℚ) (v : PyVal),
        sympyStage (normalizeAns ansStr) = SymOut.err →
        pyEval (normalizeAns ansStr) = some v →
        isIntOrFloat v = false →
        checkAnswer ansStr correct = Verdict.invalid)
    ∧ (∀ (ansStr : String) (correct : ℚ),
        sympyStage (normalizeAns ansStr) = SymOut.err →
        pyEval (normalizeAns ansStr) = some (PyVal.float PyFloat.nan) →
        checkAnswer ansStr correct = Verdict.wrong) := by
  constructor
  · intro ansStr correct v herr hev hni
    rw [checkAnswer_err_some herr hev, if_neg (by simp [hni])]
  · intro ansStr correct herr hev
    rw [checkAnswer_err_some herr hev]
    rfl

/-- Concrete instantiation of the non-numeric-value claim at "(1,2)". -/
theorem c9_nonreal_handling_witness :
    sympyStage (normalizeAns "(1,2)") = SymOut.err
    ∧ pyEval (normalizeAns "(1,2)") = some PyVal.tuple
    ∧ isIntOrFloat PyVal.tuple = false
    ∧ checkAnswer "(1,2)" 5 = Verdict.invalid :=
  ⟨by with_unfolding_all decide, by with_unfolding_all decide, by with_unfolding_all decide,
    c9_nonreal_handling.1 "(1,2)" 5 PyVal.tuple (by with_unfolding_all decide) (by with_unfolding_all decide) (by with_unfolding_all decide)⟩

/-- Claim C10, counterexample: for the input `\boxed\x7b\x7b\x7d\x7d` — a
boxed wrapper whose (balanced) payload is the brace pair `\x7b\x7d` — the
output equals the payload exactly, contradicting "the output is not the
payload" for every brace-containing payload. -/
theorem c10_payload_roundtrip :
    cleanAnswerLatex "\\boxed\x7b\x7b\x7d\x7d" = "\x7b\x7d" := by
  decide

/-- Claim C10, amended: the substitution stops at the first closing brace —
for a brace-free prefix `p1` of the payload the match captures exactly `p1`
and scanning resumes right after the first closing brace; consequently
`\boxed\x7b\frac\x7b1\x7d\x7b2\x7d\x7d` normalizes to the mangled
`\frac\x7b1\x7b2\x7d\x7d`, not to the balanced payload — though for some
brace-containing payloads (such as `\x7b\x7d`) the result happens to
coincide with the payload. -/
theorem c10_stops_at_first_closing_brace :
    (∀ (p1 rest : List Char), p1.all (· != '\x7d') = true →
        subBoxedAux ('\\' :: 'b' :: 'o' :: 'x' :: 'e' :: 'd' :: '\x7b' :: (p1 ++ '\x7d' :: rest))
          = p1 ++ subBoxedAux rest)
    ∧ cleanAnswerLatex "\\boxed\x7b\\frac\x7b1\x7d\x7b2\x7d\x7d" = "\\frac\x7b1\x7b2\x7d\x7d" :=
  ⟨fun p1 rest h => subBoxedAux_boxed p1 rest h, by with_unfolding_all decide⟩

/-- Concrete instantiation of the stop-at-first-brace claim. -/
theorem c10_stops_at_first_closing_brace_witness :
    (['5'].all (· != '\x7d') = true)
    ∧ subBoxedAux ('\\' :: 'b' :: 'o' :: 'x' :: 'e' :: 'd' :: '\x7b' :: (['5'] ++ '\x7d' :: []))
        = ['5'] ++ subBoxedAux [] :=
  ⟨by with_unfolding_all decide, c10_stops_at_first_closing_brace.1 ['5'] [] (by with_unfolding_all decide)⟩

end MathBot
